import Mathlib

/-!
Shallow embedding of the `FHEConfidentialVoting` contract
(`src/contracts/FHEVM.sol`) from the ChoicePro repository.

The contract keeps a registry of proposals, accumulates encrypted votes
homomorphically, and decrypts the tally exactly once after the deadline.
The FHEVM precompile is modelled as an abstract ciphertext capability
provider `Provider C`: the contract only uses `trivialEncrypt`, `add` and
`decrypt`.  `block.timestamp` and `msg.sender` are passed explicitly.
Solidity's revert semantics are modelled with `Except`: a failing call
returns an error and (in `applyOp`) leaves the state unchanged.
-/

namespace ChoicePro

/-- The ciphertext capability provider (the `FHEVM` precompile interface):
`trivialEncrypt`, `add` and `decrypt` over an opaque ciphertext type `C`. -/
structure Provider (C : Type) where
  trivialEncrypt : Nat → C
  add : C → C → C
  decrypt : C → Nat

/-- `struct ProposalOption { string name; euint32 encryptedVoteCount; }` -/
structure ProposalOption (C : Type) where
  name : String
  encryptedVoteCount : C

/-- `struct Proposal` of the contract. -/
structure Proposal (C : Type) where
  id : Nat
  proposer : Nat
  title : String
  votingDeadline : Nat
  resultsDecrypted : Bool
  options : List (ProposalOption C)
  decryptedResults : List Nat

/-- The zero-initialized storage slot of `mapping(uint256 => Proposal)`. -/
def defaultProposal (C : Type) : Proposal C :=
  { id := 0, proposer := 0, title := "", votingDeadline := 0,
    resultsDecrypted := false, options := [], decryptedResults := [] }

/-- Contract storage: `_nextProposalId`, `proposals`, `hasVoted`. -/
structure VState (C : Type) where
  nextProposalId : Nat
  proposals : Nat → Proposal C
  hasVoted : Nat → Nat → Bool

/-- The constructor: `_nextProposalId = 1`, all mappings zeroed. -/
def initState (C : Type) : VState C :=
  { nextProposalId := 1, proposals := fun _ => defaultProposal C,
    hasVoted := fun _ _ => false }

/-- The contract's custom errors. -/
inductive VError
  | ProposalNotFound (proposalId : Nat)
  | VotingIsClosed (proposalId : Nat)
  | AlreadyVoted (voter : Nat) (proposalId : Nat)
  | InvalidOptionsCount (provided expected : Nat)
  | TallyNotAllowed (proposalId : Nat)
  | ResultsAlreadyDecrypted (proposalId : Nat)
  deriving DecidableEq

/-- `createProposal(_title, _optionNames, _votingDurationSeconds)`:
allocates `_nextProposalId++`, sets deadline `now + duration`, pushes one
option per name seeded with `FHE.trivialEncrypt(0)`.  Following Solidity
storage semantics, only the listed fields of the slot are assigned and the
options are pushed onto the slot's existing array. -/
def createProposal {C : Type} (prov : Provider C) (s : VState C)
    (sender now : Nat) (title : String) (optionNames : List String)
    (votingDurationSeconds : Nat) : VState C × Nat :=
  ({ s with
      nextProposalId := s.nextProposalId + 1,
      proposals := fun q =>
        if q = s.nextProposalId then
          { s.proposals s.nextProposalId with
              id := s.nextProposalId,
              proposer := sender,
              title := title,
              votingDeadline := now + votingDurationSeconds,
              options := (s.proposals s.nextProposalId).options ++
                optionNames.map (fun n =>
                  { name := n, encryptedVoteCount := prov.trivialEncrypt 0 }) }
        else s.proposals q },
    s.nextProposalId)

/-- The loop body of `castVote`: `options[i] = FHE.add(options[i], votes[i])`
for every index, names untouched.  (`castVote` guards
`votes.length = options.length`, so `zipWith` visits exactly the loop's
indices.) -/
def accumulate {C : Type} (prov : Provider C)
    (opts : List (ProposalOption C)) (votes : List C) :
    List (ProposalOption C) :=
  List.zipWith
    (fun o v => { o with encryptedVoteCount := prov.add o.encryptedVoteCount v })
    opts votes

/-- The storage state after a successful `castVote`. -/
def voteSuccessState {C : Type} (prov : Provider C) (s : VState C)
    (sender proposalId : Nat) (encryptedVotes : List C) : VState C :=
  { s with
      proposals := fun q =>
        if q = proposalId then
          { s.proposals proposalId with
              options := accumulate prov (s.proposals proposalId).options encryptedVotes }
        else s.proposals q,
      hasVoted := fun v q =>
        if v = sender then (if q = proposalId then true else s.hasVoted v q)
        else s.hasVoted v q }

/-- `castVote(_proposalId, _encryptedVotes)` with the contract's four checks
in source order. -/
def castVote {C : Type} (prov : Provider C) (s : VState C)
    (sender now proposalId : Nat) (encryptedVotes : List C) :
    Except VError (VState C) :=
  if (s.proposals proposalId).id = 0 then
    .error (.ProposalNotFound proposalId)
  else if now > (s.proposals proposalId).votingDeadline then
    .error (.VotingIsClosed proposalId)
  else if s.hasVoted sender proposalId then
    .error (.AlreadyVoted sender proposalId)
  else if encryptedVotes.length ≠ (s.proposals proposalId).options.length then
    .error (.InvalidOptionsCount encryptedVotes.length
      (s.proposals proposalId).options.length)
  else
    .ok (voteSuccessState prov s sender proposalId encryptedVotes)

/-- The storage state after a successful `tallyVotes`. -/
def tallySuccessState {C : Type} (prov : Provider C) (s : VState C)
    (proposalId : Nat) : VState C :=
  { s with
      proposals := fun q =>
        if q = proposalId then
          { s.proposals proposalId with
              resultsDecrypted := true,
              decryptedResults := (s.proposals proposalId).options.map
                (fun o => prov.decrypt o.encryptedVoteCount) }
        else s.proposals q }

/-- `tallyVotes(_proposalId)` with the contract's three checks in source
order: unknown id, `now <= deadline`, already decrypted. -/
def tallyVotes {C : Type} (prov : Provider C) (s : VState C)
    (now proposalId : Nat) : Except VError (VState C) :=
  if (s.proposals proposalId).id = 0 then
    .error (.ProposalNotFound proposalId)
  else if now ≤ (s.proposals proposalId).votingDeadline then
    .error (.TallyNotAllowed proposalId)
  else if (s.proposals proposalId).resultsDecrypted then
    .error (.ResultsAlreadyDecrypted proposalId)
  else
    .ok (tallySuccessState prov s proposalId)

/-- `getProposal(_proposalId)`. -/
def getProposal {C : Type} (s : VState C) (proposalId : Nat) :
    Except VError (Proposal C) :=
  if (s.proposals proposalId).id = 0 then
    .error (.ProposalNotFound proposalId)
  else .ok (s.proposals proposalId)

/-- `getDecryptedResults(_proposalId)`. -/
def getDecryptedResults {C : Type} (s : VState C) (proposalId : Nat) :
    Except VError (List Nat) :=
  if (s.proposals proposalId).id = 0 then
    .error (.ProposalNotFound proposalId)
  else if ¬ (s.proposals proposalId).resultsDecrypted then
    .error (.TallyNotAllowed proposalId)
  else .ok (s.proposals proposalId).decryptedResults

/-- One external state-mutating call, with its caller and clock reading. -/
inductive Op (C : Type)
  | create (sender now : Nat) (title : String) (optionNames : List String)
      (votingDurationSeconds : Nat)
  | vote (sender now proposalId : Nat) (encryptedVotes : List C)
  | tally (now proposalId : Nat)

/-- Apply one call; a reverting call leaves storage unchanged. -/
def applyOp {C : Type} (prov : Provider C) (op : Op C) (s : VState C) :
    VState C :=
  match op with
  | .create sender now title names dur =>
      (createProposal prov s sender now title names dur).1
  | .vote sender now pid votes =>
      match castVote prov s sender now pid votes with
      | .ok t => t
      | .error _ => s
  | .tally now pid =>
      match tallyVotes prov s now pid with
      | .ok t => t
      | .error _ => s

/-- Apply a sequence of calls, first element first. -/
def applyOps {C : Type} (prov : Provider C) (ops : List (Op C))
    (s : VState C) : VState C :=
  match ops with
  | [] => s
  | op :: rest => applyOps prov rest (applyOp prov op s)

/-- States reachable from a fresh deployment. -/
def Reachable {C : Type} (prov : Provider C) (s : VState C) : Prop :=
  ∃ ops, s = applyOps prov ops (initState C)

/-- A concrete provider instance on plain naturals, used for witnesses. -/
def NatProvider : Provider Nat :=
  { trivialEncrypt := fun n => n, add := Nat.add, decrypt := fun n => n }

/-! ### Characterizations of the three mutating calls -/

theorem castVote_ok_iff {C : Type} (prov : Provider C) (s : VState C)
    (sender now pid : Nat) (votes : List C) (t : VState C) :
    castVote prov s sender now pid votes = .ok t ↔
      (s.proposals pid).id ≠ 0 ∧
      now ≤ (s.proposals pid).votingDeadline ∧
      s.hasVoted sender pid = false ∧
      votes.length = (s.proposals pid).options.length ∧
      t = voteSuccessState prov s sender pid votes := by
  unfold castVote
  split_ifs with h1 h2 h3 h4
  · simp [h1]
  · simp [Nat.lt_iff_add_one_le] at h2
    simp
    intro _ hle
    omega
  · simp only [reduceCtorEq, false_iff, not_and]
    intro _ _ hfalse
    simp [h3] at hfalse
  · simp only [reduceCtorEq, false_iff, not_and]
    intro _ _ _ hlen
    exact absurd hlen h4
  · constructor
    · intro h
      refine ⟨h1, by omega, by simp_all, by omega, ?_⟩
      exact (Except.ok.injEq _ _).mp h.symm
    · intro h
      rw [h.2.2.2.2]

theorem castVote_error_cases {C : Type} (prov : Provider C) (s : VState C)
    (sender now pid : Nat) (votes : List C) (e : VError) :
    castVote prov s sender now pid votes = .error e →
      ((s.proposals pid).id = 0 ∧ e = .ProposalNotFound pid) ∨
      ((s.proposals pid).id ≠ 0 ∧ now > (s.proposals pid).votingDeadline ∧
        e = .VotingIsClosed pid) ∨
      ((s.proposals pid).id ≠ 0 ∧ now ≤ (s.proposals pid).votingDeadline ∧
        s.hasVoted sender pid = true ∧ e = .AlreadyVoted sender pid) ∨
      ((s.proposals pid).id ≠ 0 ∧ now ≤ (s.proposals pid).votingDeadline ∧
        s.hasVoted sender pid = false ∧
        votes.length ≠ (s.proposals pid).options.length ∧
        e = .InvalidOptionsCount votes.length (s.proposals pid).options.length) := by
  unfold castVote
  split_ifs with h1 h2 h3 h4 <;> intro h <;>
    simp only [Except.error.injEq, reduceCtorEq] at h
  · exact Or.inl ⟨h1, h.symm⟩
  · exact Or.inr (Or.inl ⟨h1, h2, h.symm⟩)
  · exact Or.inr (Or.inr (Or.inl ⟨h1, by omega, h3, h.symm⟩))
  · refine Or.inr (Or.inr (Or.inr ⟨h1, by omega, ?_, h4, h.symm⟩))
    simp_all

theorem tallyVotes_ok_iff {C : Type} (prov : Provider C) (s : VState C)
    (now pid : Nat) (t : VState C) :
    tallyVotes prov s now pid = .ok t ↔
      (s.proposals pid).id ≠ 0 ∧
      now > (s.proposals pid).votingDeadline ∧
      (s.proposals pid).resultsDecrypted = false ∧
      t = tallySuccessState prov s pid := by
  unfold tallyVotes
  split_ifs with h1 h2 h3
  · simp [h1]
  · simp only [reduceCtorEq, false_iff, not_and]
    intro _ hgt
    omega
  · simp only [reduceCtorEq, false_iff, not_and]
    intro _ _ hfalse
    simp [h3] at hfalse
  · constructor
    · intro h
      exact ⟨h1, by omega, by simp_all, ((Except.ok.injEq _ _).mp h.symm)⟩
    · intro h
      rw [h.2.2.2]

theorem tallyVotes_error_already {C : Type} (prov : Provider C) (s : VState C)
    (now pid : Nat) (h1 : (s.proposals pid).id ≠ 0)
    (h2 : now > (s.proposals pid).votingDeadline)
    (h3 : (s.proposals pid).resultsDecrypted = true) :
    tallyVotes prov s now pid = .error (.ResultsAlreadyDecrypted pid) := by
  unfold tallyVotes
  rw [if_neg h1, if_neg (by omega : ¬ now ≤ (s.proposals pid).votingDeadline),
    if_pos h3]

/-! ### Frame lemmas -/

theorem accumulate_map_name {C : Type} (prov : Provider C)
    (opts : List (ProposalOption C)) (votes : List C)
    (h : votes.length = opts.length) :
    (accumulate prov opts votes).map ProposalOption.name =
      opts.map ProposalOption.name := by
  induction opts generalizing votes with
  | nil => simp [accumulate]
  | cons o rest ih =>
    cases votes with
    | nil => simp at h
    | cons v vrest =>
      simp only [accumulate, List.zipWith_cons_cons, List.map_cons]
      refine congrArg _ ?_
      exact ih vrest (by simpa using h)

theorem accumulate_length {C : Type} (prov : Provider C)
    (opts : List (ProposalOption C)) (votes : List C) :
    (accumulate prov opts votes).length = min opts.length votes.length := by
  simp [accumulate]

theorem createProposal_nextProposalId {C : Type} (prov : Provider C)
    (s : VState C) (sender now : Nat) (title : String) (names : List String)
    (dur : Nat) :
    (createProposal prov s sender now title names dur).1.nextProposalId =
      s.nextProposalId + 1 := rfl

theorem createProposal_snd {C : Type} (prov : Provider C) (s : VState C)
    (sender now : Nat) (title : String) (names : List String) (dur : Nat) :
    (createProposal prov s sender now title names dur).2 = s.nextProposalId := rfl

theorem createProposal_hasVoted {C : Type} (prov : Provider C) (s : VState C)
    (sender now : Nat) (title : String) (names : List String) (dur : Nat) :
    (createProposal prov s sender now title names dur).1.hasVoted =
      s.hasVoted := rfl

theorem createProposal_proposals_eq {C : Type} (prov : Provider C)
    (s : VState C) (sender now : Nat) (title : String) (names : List String)
    (dur : Nat) :
    (createProposal prov s sender now title names dur).1.proposals
        s.nextProposalId =
      { s.proposals s.nextProposalId with
          id := s.nextProposalId,
          proposer := sender,
          title := title,
          votingDeadline := now + dur,
          options := (s.proposals s.nextProposalId).options ++
            names.map (fun n =>
              { name := n, encryptedVoteCount := prov.trivialEncrypt 0 }) } := by
  simp [createProposal]

theorem createProposal_proposals_ne {C : Type} (prov : Provider C)
    (s : VState C) (sender now : Nat) (title : String) (names : List String)
    (dur : Nat) (q : Nat) (hq : q ≠ s.nextProposalId) :
    (createProposal prov s sender now title names dur).1.proposals q =
      s.proposals q := by
  simp [createProposal, hq]

theorem voteSuccessState_nextProposalId {C : Type} (prov : Provider C)
    (s : VState C) (sender pid : Nat) (votes : List C) :
    (voteSuccessState prov s sender pid votes).nextProposalId =
      s.nextProposalId := rfl

theorem tallySuccessState_nextProposalId {C : Type} (prov : Provider C)
    (s : VState C) (pid : Nat) :
    (tallySuccessState prov s pid).nextProposalId = s.nextProposalId := rfl

theorem voteSuccessState_proposals_eq {C : Type} (prov : Provider C)
    (s : VState C) (sender pid : Nat) (votes : List C) :
    (voteSuccessState prov s sender pid votes).proposals pid =
      { s.proposals pid with
          options := accumulate prov (s.proposals pid).options votes } := by
  simp [voteSuccessState]

theorem voteSuccessState_proposals_ne {C : Type} (prov : Provider C)
    (s : VState C) (sender pid q : Nat) (votes : List C) (hqp : q ≠ pid) :
    (voteSuccessState prov s sender pid votes).proposals q = s.proposals q := by
  simp [voteSuccessState, hqp]

theorem voteSuccessState_hasVoted_mono {C : Type} (prov : Provider C)
    (s : VState C) (sender pid : Nat) (votes : List C) (v r : Nat)
    (hvr : s.hasVoted v r = true) :
    (voteSuccessState prov s sender pid votes).hasVoted v r = true := by
  simp only [voteSuccessState]
  by_cases hv : v = sender
  · subst hv
    by_cases hr : r = pid
    · simp [hr]
    · simp [hr, hvr]
  · simp [hv, hvr]

theorem voteSuccessState_hasVoted_self {C : Type} (prov : Provider C)
    (s : VState C) (sender pid : Nat) (votes : List C) :
    (voteSuccessState prov s sender pid votes).hasVoted sender pid = true := by
  simp [voteSuccessState]

theorem voteSuccessState_hasVoted_other {C : Type} (prov : Provider C)
    (s : VState C) (sender pid : Nat) (votes : List C) (v r : Nat)
    (h : v ≠ sender ∨ r ≠ pid) :
    (voteSuccessState prov s sender pid votes).hasVoted v r = s.hasVoted v r := by
  simp only [voteSuccessState]
  by_cases hv : v = sender
  · subst hv
    rcases h with h | h
    · exact absurd rfl h
    · simp [h]
  · simp [hv]

theorem tallySuccessState_proposals_eq {C : Type} (prov : Provider C)
    (s : VState C) (pid : Nat) :
    (tallySuccessState prov s pid).proposals pid =
      { s.proposals pid with
          resultsDecrypted := true,
          decryptedResults := (s.proposals pid).options.map
            (fun o => prov.decrypt o.encryptedVoteCount) } := by
  simp [tallySuccessState]

theorem tallySuccessState_proposals_ne {C : Type} (prov : Provider C)
    (s : VState C) (pid q : Nat) (hqp : q ≠ pid) :
    (tallySuccessState prov s pid).proposals q = s.proposals q := by
  simp [tallySuccessState, hqp]

/-- Fields of a proposal slot `q` already allocated before an operation are
preserved by that operation, except that a `castVote` on `q` may change its
options' ciphertexts (names survive) and a `tallyVotes` on `q` may set its
results; allocated results are frozen, vote records are never cleared, and
the id counter never decreases. -/
theorem applyOp_frame {C : Type} (prov : Provider C) (op : Op C)
    (s : VState C) (q : Nat) (hq : q < s.nextProposalId) :
    s.nextProposalId ≤ (applyOp prov op s).nextProposalId ∧
    ((applyOp prov op s).proposals q).id = (s.proposals q).id ∧
    ((applyOp prov op s).proposals q).proposer = (s.proposals q).proposer ∧
    ((applyOp prov op s).proposals q).title = (s.proposals q).title ∧
    ((applyOp prov op s).proposals q).votingDeadline =
      (s.proposals q).votingDeadline ∧
    ((applyOp prov op s).proposals q).options.map ProposalOption.name =
      (s.proposals q).options.map ProposalOption.name ∧
    ((s.proposals q).resultsDecrypted = true →
      ((applyOp prov op s).proposals q).resultsDecrypted = true ∧
      ((applyOp prov op s).proposals q).decryptedResults =
        (s.proposals q).decryptedResults) ∧
    (∀ v r, s.hasVoted v r = true → (applyOp prov op s).hasVoted v r = true) := by
  cases op with
  | create sender now title names dur =>
    have hne : q ≠ s.nextProposalId := Nat.ne_of_lt hq
    simp only [applyOp, createProposal]
    refine ⟨by omega, ?_⟩
    simp [hne]
  | vote sender now pid votes =>
    cases h : castVote prov s sender now pid votes with
    | error e => simp [applyOp, h]
    | ok t =>
      obtain ⟨_, _, _, hlen, ht⟩ := (castVote_ok_iff prov s sender now pid votes t).mp h
      subst ht
      simp only [applyOp, h]
      by_cases hqp : q = pid
      · subst hqp
        rw [voteSuccessState_proposals_eq]
        exact ⟨le_refl _, rfl, rfl, rfl, rfl,
          accumulate_map_name prov _ _ hlen, fun h2 => ⟨h2, rfl⟩,
          fun v r hvr => voteSuccessState_hasVoted_mono prov s sender q votes v r hvr⟩
      · rw [voteSuccessState_proposals_ne prov s sender pid q votes hqp]
        exact ⟨le_refl _, rfl, rfl, rfl, rfl, rfl, fun h2 => ⟨h2, rfl⟩,
          fun v r hvr => voteSuccessState_hasVoted_mono prov s sender pid votes v r hvr⟩
  | tally now pid =>
    cases h : tallyVotes prov s now pid with
    | error e => simp [applyOp, h]
    | ok t =>
      obtain ⟨_, _, hdec, ht⟩ := (tallyVotes_ok_iff prov s now pid t).mp h
      subst ht
      simp only [applyOp, h]
      by_cases hqp : q = pid
      · subst hqp
        rw [tallySuccessState_proposals_eq]
        exact ⟨le_refl _, rfl, rfl, rfl, rfl, rfl,
          fun h2 => absurd h2 (by simp [hdec]), fun v r hvr => hvr⟩
      · rw [tallySuccessState_proposals_ne prov s pid q hqp]
        exact ⟨le_refl _, rfl, rfl, rfl, rfl, rfl, fun h2 => ⟨h2, rfl⟩,
          fun v r hvr => hvr⟩

/-- `applyOp_frame` lifted to a sequence of operations. -/
theorem applyOps_frame {C : Type} (prov : Provider C) (ops : List (Op C))
    (s : VState C) (q : Nat) (hq : q < s.nextProposalId) :
    s.nextProposalId ≤ (applyOps prov ops s).nextProposalId ∧
    ((applyOps prov ops s).proposals q).id = (s.proposals q).id ∧
    ((applyOps prov ops s).proposals q).proposer = (s.proposals q).proposer ∧
    ((applyOps prov ops s).proposals q).title = (s.proposals q).title ∧
    ((applyOps prov ops s).proposals q).votingDeadline =
      (s.proposals q).votingDeadline ∧
    ((applyOps prov ops s).proposals q).options.map ProposalOption.name =
      (s.proposals q).options.map ProposalOption.name ∧
    ((s.proposals q).resultsDecrypted = true →
      ((applyOps prov ops s).proposals q).resultsDecrypted = true ∧
      ((applyOps prov ops s).proposals q).decryptedResults =
        (s.proposals q).decryptedResults) ∧
    (∀ v r, s.hasVoted v r = true → (applyOps prov ops s).hasVoted v r = true) := by
  induction ops generalizing s with
  | nil => exact ⟨le_refl _, rfl, rfl, rfl, rfl, rfl, fun h => ⟨h, rfl⟩,
      fun v r hvr => hvr⟩
  | cons op rest ih =>
    obtain ⟨m1, i1, p1, t1, d1, n1, r1, v1⟩ := applyOp_frame prov op s q hq
    obtain ⟨m2, i2, p2, t2, d2, n2, r2, v2⟩ :=
      ih (applyOp prov op s) (Nat.lt_of_lt_of_le hq m1)
    simp only [applyOps]
    refine ⟨le_trans m1 m2, i2.trans i1, p2.trans p1, t2.trans t1,
      d2.trans d1, n2.trans n1, ?_, fun v r hvr => v2 v r (v1 v r hvr)⟩
    intro hres
    obtain ⟨ra, rb⟩ := r1 hres
    obtain ⟨rc, rd⟩ := r2 ra
    exact ⟨rc, rd.trans rb⟩

/-! ### The reachable-state invariant -/

/-- Storage invariant maintained by every call: the id counter starts at 1,
slots at or above it (and slot 0) are unallocated, allocated slots carry
their own index as id, and decrypted results exist only after a tally and
then match the option count. -/
def Inv {C : Type} (s : VState C) : Prop :=
  1 ≤ s.nextProposalId ∧
  (∀ q, s.nextProposalId ≤ q → s.proposals q = defaultProposal C) ∧
  s.proposals 0 = defaultProposal C ∧
  (∀ q, 1 ≤ q → q < s.nextProposalId → (s.proposals q).id = q) ∧
  (∀ q, (s.proposals q).decryptedResults ≠ [] →
    (s.proposals q).resultsDecrypted = true) ∧
  (∀ q, (s.proposals q).resultsDecrypted = true →
    (s.proposals q).decryptedResults.length = (s.proposals q).options.length)

theorem id_ne_zero_iff {C : Type} {s : VState C} (hs : Inv s) (q : Nat) :
    (s.proposals q).id ≠ 0 ↔ 1 ≤ q ∧ q < s.nextProposalId := by
  obtain ⟨h1, h2, h3, h4, _, _⟩ := hs
  constructor
  · intro hne
    by_cases hq0 : q = 0
    · subst hq0
      rw [h3] at hne
      exact absurd rfl hne
    · refine ⟨by omega, ?_⟩
      by_contra hge
      rw [h2 q (by omega)] at hne
      exact absurd rfl hne
  · intro ⟨ha, hb⟩
    rw [h4 q ha hb]
    omega

theorem Inv_initState (C : Type) : Inv (initState C) := by
  refine ⟨le_refl 1, fun q _ => rfl, rfl, ?_, ?_, ?_⟩
  · intro q hq1 hq2
    simp only [initState] at hq2
    omega
  · intro q hq
    exact absurd rfl hq
  · intro q hq
    simp [initState, defaultProposal] at hq

theorem Inv_applyOp {C : Type} (prov : Provider C) (op : Op C) (s : VState C)
    (hs : Inv s) : Inv (applyOp prov op s) := by
  obtain ⟨h1, h2, h3, h4, h5, h6⟩ := hs
  cases op with
  | create sender now title names dur =>
    have hdef : s.proposals s.nextProposalId = defaultProposal C :=
      h2 _ (le_refl _)
    show Inv (createProposal prov s sender now title names dur).1
    refine ⟨?_, ?_, ?_, ?_, ?_, ?_⟩
    · rw [createProposal_nextProposalId]
      omega
    · intro q hq
      rw [createProposal_nextProposalId] at hq
      rw [createProposal_proposals_ne prov s sender now title names dur q
        (by omega)]
      exact h2 q (by omega)
    · rw [createProposal_proposals_ne prov s sender now title names dur 0
        (by omega)]
      exact h3
    · intro q hq1 hq2
      rw [createProposal_nextProposalId] at hq2
      by_cases hq : q = s.nextProposalId
      · subst hq
        rw [createProposal_proposals_eq]
      · rw [createProposal_proposals_ne prov s sender now title names dur q hq]
        exact h4 q hq1 (by omega)
    · intro q hq
      by_cases hqn : q = s.nextProposalId
      · subst hqn
        rw [createProposal_proposals_eq] at hq ⊢
        rw [hdef] at hq ⊢
        exact absurd rfl hq
      · rw [createProposal_proposals_ne prov s sender now title names dur q
          hqn] at hq ⊢
        exact h5 q hq
    · intro q hq
      by_cases hqn : q = s.nextProposalId
      · subst hqn
        rw [createProposal_proposals_eq] at hq
        rw [hdef] at hq
        simp [defaultProposal] at hq
      · rw [createProposal_proposals_ne prov s sender now title names dur q
          hqn] at hq ⊢
        exact h6 q hq
  | vote sender now pid votes =>
    cases h : castVote prov s sender now pid votes with
    | error e => simpa [applyOp, h] using ⟨h1, h2, h3, h4, h5, h6⟩
    | ok t =>
      obtain ⟨hid, _, _, hlen, ht⟩ := (castVote_ok_iff prov s sender now pid votes t).mp h
      subst ht
      have hpid : 1 ≤ pid ∧ pid < s.nextProposalId :=
        (id_ne_zero_iff ⟨h1, h2, h3, h4, h5, h6⟩ pid).mp hid
      simp only [applyOp, h]
      refine ⟨h1, ?_, ?_, ?_, ?_, ?_⟩
      · intro q hq
        rw [voteSuccessState_nextProposalId] at hq
        rw [voteSuccessState_proposals_ne prov s sender pid q votes (by omega)]
        exact h2 q hq
      · rw [voteSuccessState_proposals_ne prov s sender pid 0 votes (by omega)]
        exact h3
      · intro q hq1 hq2
        by_cases hqp : q = pid
        · subst hqp
          rw [voteSuccessState_proposals_eq]
          exact h4 q hq1 hq2
        · rw [voteSuccessState_proposals_ne prov s sender pid q votes hqp]
          exact h4 q hq1 hq2
      · intro q hq
        by_cases hqp : q = pid
        · subst hqp
          rw [voteSuccessState_proposals_eq] at hq ⊢
          exact h5 q hq
        · rw [voteSuccessState_proposals_ne prov s sender pid q votes hqp] at hq ⊢
          exact h5 q hq
      · intro q hq
        by_cases hqp : q = pid
        · subst hqp
          rw [voteSuccessState_proposals_eq] at hq ⊢
          show (s.proposals q).decryptedResults.length =
            (accumulate prov (s.proposals q).options votes).length
          rw [accumulate_length prov _ _, ← hlen, Nat.min_self]
          rw [hlen]
          exact h6 q hq
        · rw [voteSuccessState_proposals_ne prov s sender pid q votes hqp] at hq ⊢
          exact h6 q hq
  | tally now pid =>
    cases h : tallyVotes prov s now pid with
    | error e => simpa [applyOp, h] using ⟨h1, h2, h3, h4, h5, h6⟩
    | ok t =>
      obtain ⟨hid, _, _, ht⟩ := (tallyVotes_ok_iff prov s now pid t).mp h
      subst ht
      have hpid : 1 ≤ pid ∧ pid < s.nextProposalId :=
        (id_ne_zero_iff ⟨h1, h2, h3, h4, h5, h6⟩ pid).mp hid
      simp only [applyOp, h]
      refine ⟨h1, ?_, ?_, ?_, ?_, ?_⟩
      · intro q hq
        rw [tallySuccessState_nextProposalId] at hq
        rw [tallySuccessState_proposals_ne prov s pid q (by omega)]
        exact h2 q hq
      · rw [tallySuccessState_proposals_ne prov s pid 0 (by omega)]
        exact h3
      · intro q hq1 hq2
        by_cases hqp : q = pid
        · subst hqp
          rw [tallySuccessState_proposals_eq]
          exact h4 q hq1 hq2
        · rw [tallySuccessState_proposals_ne prov s pid q hqp]
          exact h4 q hq1 hq2
      · intro q hq
        by_cases hqp : q = pid
        · subst hqp
          rw [tallySuccessState_proposals_eq]
        · rw [tallySuccessState_proposals_ne prov s pid q hqp] at hq ⊢
          exact h5 q hq
      · intro q hq
        by_cases hqp : q = pid
        · subst hqp
          rw [tallySuccessState_proposals_eq]
          simp
        · rw [tallySuccessState_proposals_ne prov s pid q hqp] at hq ⊢
          exact h6 q hq

theorem Inv_applyOps {C : Type} (prov : Provider C) (ops : List (Op C))
    (s : VState C) (hs : Inv s) : Inv (applyOps prov ops s) := by
  induction ops generalizing s with
  | nil => exact hs
  | cons op rest ih => exact ih (applyOp prov op s) (Inv_applyOp prov op s hs)

theorem reachable_Inv {C : Type} (prov : Provider C) (s : VState C)
    (hs : Reachable prov s) : Inv s := by
  obtain ⟨ops, rfl⟩ := hs
  exact Inv_applyOps prov ops (initState C) (Inv_initState C)

/-! ### Concrete example states (used by witnesses) -/

/-- Proposal 1 "Q" with options Yes/No, created at clock 0 with a
5-second voting window. -/
def exProp : VState Nat :=
  applyOps NatProvider [Op.create 7 0 "Q" ["Yes", "No"] 5] (initState Nat)

/-- `exProp` after voter 4 cast `[1, 0]` at clock 1. -/
def exVoted : VState Nat :=
  applyOp NatProvider (Op.vote 4 1 1 [1, 0]) exProp

/-- `exVoted` after a successful tally at clock 6. -/
def exTallied : VState Nat :=
  applyOp NatProvider (Op.tally 6 1) exVoted

/-- A proposal created with an empty option list, then tallied. -/
def exEmptyTallied : VState Nat :=
  applyOps NatProvider [Op.create 7 0 "E" [] 0, Op.tally 1 1] (initState Nat)

/-! ### Claim theorems -/

/-- C3: for an existing proposal the deadline boundary is asymmetric:
`castVote` strictly after the deadline fails with `VotingIsClosed`;
at clock = deadline `castVote` passes the deadline check while
`tallyVotes` fails with `TallyNotAllowed`; `tallyVotes` succeeds only
strictly after the deadline. -/
theorem deadline_boundary_asymmetric {C : Type} (prov : Provider C)
    (s : VState C) (sender now pid : Nat) (votes : List C)
    (hex : (s.proposals pid).id ≠ 0) :
    (now > (s.proposals pid).votingDeadline →
      castVote prov s sender now pid votes = .error (.VotingIsClosed pid)) ∧
    (now = (s.proposals pid).votingDeadline →
      ∀ r, castVote prov s sender now pid votes ≠ .error (.VotingIsClosed r)) ∧
    (now = (s.proposals pid).votingDeadline →
      tallyVotes prov s now pid = .error (.TallyNotAllowed pid)) ∧
    (∀ t, tallyVotes prov s now pid = .ok t →
      now > (s.proposals pid).votingDeadline) := by
  refine ⟨?_, ?_, ?_, ?_⟩
  · intro hgt
    unfold castVote
    rw [if_neg hex, if_pos hgt]
  · intro heq r
    unfold castVote
    rw [if_neg hex, if_neg (by omega : ¬ now > (s.proposals pid).votingDeadline)]
    split_ifs <;> simp
  · intro heq
    unfold tallyVotes
    rw [if_neg hex, if_pos (by omega : now ≤ (s.proposals pid).votingDeadline)]
  · intro t ht
    exact ((tallyVotes_ok_iff prov s now pid t).mp ht).2.1

/-- C3 witness: on the concrete proposal with deadline 5, a vote at clock
10 fails `VotingIsClosed`, at clock 5 the tally fails `TallyNotAllowed`. -/
theorem deadline_boundary_asymmetric_witness :
    castVote NatProvider exProp 7 10 1 [1, 0] = .error (.VotingIsClosed 1) ∧
    tallyVotes NatProvider exProp 5 1 = .error (.TallyNotAllowed 1) := by
  have h1 := deadline_boundary_asymmetric NatProvider exProp 7 10 1 [1, 0]
    (by decide)
  have h2 := deadline_boundary_asymmetric NatProvider exProp 7 5 1 [1, 0]
    (by decide)
  exact ⟨h1.1 (by decide), h2.2.2.1 (by decide)⟩

/-- Each `castVote` error is determined by the first failing check, in
source order. -/
theorem castVote_stage_errors {C : Type} (prov : Provider C)
    (s : VState C) (sender now pid : Nat) (votes : List C) :
    ((s.proposals pid).id = 0 →
      castVote prov s sender now pid votes = .error (.ProposalNotFound pid)) ∧
    ((s.proposals pid).id ≠ 0 → now > (s.proposals pid).votingDeadline →
      castVote prov s sender now pid votes = .error (.VotingIsClosed pid)) ∧
    ((s.proposals pid).id ≠ 0 → now ≤ (s.proposals pid).votingDeadline →
      s.hasVoted sender pid = true →
      castVote prov s sender now pid votes = .error (.AlreadyVoted sender pid)) ∧
    ((s.proposals pid).id ≠ 0 → now ≤ (s.proposals pid).votingDeadline →
      s.hasVoted sender pid = false →
      votes.length ≠ (s.proposals pid).options.length →
      castVote prov s sender now pid votes =
        .error (.InvalidOptionsCount votes.length
          (s.proposals pid).options.length)) := by
  refine ⟨?_, ?_, ?_, ?_⟩
  · intro h0
    unfold castVote
    rw [if_pos h0]
  · intro hex hgt
    unfold castVote
    rw [if_neg hex, if_pos hgt]
  · intro hex hle hv
    unfold castVote
    rw [if_neg hex, if_neg (by omega : ¬ now > (s.proposals pid).votingDeadline),
      if_pos hv]
  · intro hex hle hv hlen
    unfold castVote
    rw [if_neg hex, if_neg (by omega : ¬ now > (s.proposals pid).votingDeadline),
      if_neg (by simp [hv]), if_pos hlen]

/-- C9: `castVote` checks its error conditions in the fixed order unknown
proposal, closed window, duplicate voter, length mismatch: each error
requires only the earlier checks to pass, regardless of later ones. -/
theorem castVote_error_precedence {C : Type} (prov : Provider C)
    (s : VState C) (sender now pid : Nat) (votes : List C) :
    ((s.proposals pid).id = 0 →
      castVote prov s sender now pid votes = .error (.ProposalNotFound pid)) ∧
    ((s.proposals pid).id ≠ 0 → now > (s.proposals pid).votingDeadline →
      castVote prov s sender now pid votes = .error (.VotingIsClosed pid)) ∧
    ((s.proposals pid).id ≠ 0 → now ≤ (s.proposals pid).votingDeadline →
      s.hasVoted sender pid = true →
      castVote prov s sender now pid votes = .error (.AlreadyVoted sender pid)) ∧
    ((s.proposals pid).id ≠ 0 → now ≤ (s.proposals pid).votingDeadline →
      s.hasVoted sender pid = false →
      votes.length ≠ (s.proposals pid).options.length →
      castVote prov s sender now pid votes =
        .error (.InvalidOptionsCount votes.length
          (s.proposals pid).options.length)) :=
  castVote_stage_errors prov s sender now pid votes

/-- C9 witness: a duplicate voter after the deadline gets `VotingIsClosed`
(not `AlreadyVoted`); a duplicate voter with a wrong-length vector inside
the window gets `AlreadyVoted` (not `InvalidOptionsCount`). -/
theorem castVote_error_precedence_witness :
    exVoted.hasVoted 4 1 = true ∧
    castVote NatProvider exVoted 4 10 1 [1, 0] = .error (.VotingIsClosed 1) ∧
    castVote NatProvider exVoted 4 3 1 [1, 0, 5] = .error (.AlreadyVoted 4 1) := by
  have h1 := castVote_error_precedence NatProvider exVoted 4 10 1 [1, 0]
  have h2 := castVote_error_precedence NatProvider exVoted 4 3 1 [1, 0, 5]
  exact ⟨by decide, h1.2.1 (by decide) (by decide),
    h2.2.2.1 (by decide) (by decide) (by decide)⟩

/-- C10: a successful `castVote` on proposal `pid` changes only `pid`'s
option ciphertexts and the (sender, pid) voter record: the proposal's id,
proposer, title, deadline, option names, `resultsDecrypted` and
`decryptedResults` are unchanged, every other proposal slot is unchanged,
every other voter record is unchanged, and the id counter is unchanged. -/
theorem castVote_frame {C : Type} (prov : Provider C) (s : VState C)
    (sender now pid : Nat) (votes : List C) (t : VState C)
    (hvote : castVote prov s sender now pid votes = .ok t) :
    (t.proposals pid).id = (s.proposals pid).id ∧
    (t.proposals pid).proposer = (s.proposals pid).proposer ∧
    (t.proposals pid).title = (s.proposals pid).title ∧
    (t.proposals pid).votingDeadline = (s.proposals pid).votingDeadline ∧
    (t.proposals pid).options.map ProposalOption.name =
      (s.proposals pid).options.map ProposalOption.name ∧
    (t.proposals pid).resultsDecrypted = (s.proposals pid).resultsDecrypted ∧
    (t.proposals pid).decryptedResults = (s.proposals pid).decryptedResults ∧
    (∀ q, q ≠ pid → t.proposals q = s.proposals q) ∧
    (∀ v r, v ≠ sender ∨ r ≠ pid → t.hasVoted v r = s.hasVoted v r) ∧
    t.nextProposalId = s.nextProposalId := by
  obtain ⟨_, _, _, hlen, ht⟩ := (castVote_ok_iff prov s sender now pid votes t).mp hvote
  subst ht
  rw [voteSuccessState_proposals_eq]
  exact ⟨rfl, rfl, rfl, rfl, accumulate_map_name prov _ _ hlen, rfl, rfl,
    fun q hq => voteSuccessState_proposals_ne prov s sender pid q votes hq,
    fun v r hvr => voteSuccessState_hasVoted_other prov s sender pid votes v r hvr,
    rfl⟩

/-- C10 witness: the concrete successful vote by voter 4 on proposal 1
leaves every stable field intact. -/
theorem castVote_frame_witness :
    (exVoted.proposals 1).title = "Q" ∧
    (exVoted.proposals 1).votingDeadline = 5 ∧
    (exVoted.proposals 1).resultsDecrypted = false ∧
    exVoted.proposals 2 = exProp.proposals 2 ∧
    exVoted.hasVoted 9 1 = exProp.hasVoted 9 1 := by
  have h := castVote_frame NatProvider exProp 4 1 1 [1, 0] exVoted (by rfl)
  refine ⟨?_, ?_, ?_, h.2.2.2.2.2.2.2.1 2 (by decide),
    h.2.2.2.2.2.2.2.2.1 9 1 (Or.inl (by decide))⟩
  · rw [h.2.2.1]
    rfl
  · rw [h.2.2.2.1]
    rfl
  · rw [h.2.2.2.2.2.1]
    rfl

/-- C4: a successful `castVote` adds `votes[i]` homomorphically onto every
option accumulator and records the voter; a wrong-length vector (earlier
checks passing) fails with `InvalidOptionsCount`; any failing `castVote`
leaves the state completely unchanged. -/
theorem castVote_updates_all_or_nothing {C : Type} (prov : Provider C)
    (s : VState C) (sender now pid : Nat) (votes : List C) :
    (∀ t, castVote prov s sender now pid votes = .ok t →
      votes.length = (s.proposals pid).options.length ∧
      (t.proposals pid).options.length = (s.proposals pid).options.length ∧
      (∀ i (h1 : i < (t.proposals pid).options.length)
          (h2 : i < (s.proposals pid).options.length) (h3 : i < votes.length),
        ((t.proposals pid).options.get ⟨i, h1⟩).encryptedVoteCount =
          prov.add (((s.proposals pid).options.get ⟨i, h2⟩).encryptedVoteCount)
            (votes.get ⟨i, h3⟩)) ∧
      t.hasVoted sender pid = true) ∧
    ((s.proposals pid).id ≠ 0 → now ≤ (s.proposals pid).votingDeadline →
      s.hasVoted sender pid = false →
      votes.length ≠ (s.proposals pid).options.length →
      castVote prov s sender now pid votes =
        .error (.InvalidOptionsCount votes.length
          (s.proposals pid).options.length)) ∧
    (∀ e, castVote prov s sender now pid votes = .error e →
      applyOp prov (Op.vote sender now pid votes) s = s) := by
  refine ⟨?_, ?_, ?_⟩
  · intro t ht
    obtain ⟨_, _, _, hlen, ht⟩ := (castVote_ok_iff prov s sender now pid votes t).mp ht
    subst ht
    rw [voteSuccessState_proposals_eq]
    refine ⟨hlen, by rw [accumulate_length]; omega, ?_,
      voteSuccessState_hasVoted_self prov s sender pid votes⟩
    intro i h1 h2 h3
    simp [accumulate]
  · exact (castVote_stage_errors prov s sender now pid votes).2.2.2
  · intro e he
    simp [applyOp, he]

/-- C4 witness: on the 2-option proposal a 1-ciphertext vote fails
`InvalidOptionsCount` and changes nothing; the successful concrete vote
adds onto both accumulators and sets the record. -/
theorem castVote_updates_all_or_nothing_witness :
    (exVoted.proposals 1).options.map ProposalOption.encryptedVoteCount = [1, 0] ∧
    exVoted.hasVoted 4 1 = true ∧
    castVote NatProvider exProp 4 1 1 [1] =
      .error (.InvalidOptionsCount 1 2) ∧
    applyOp NatProvider (Op.vote 4 1 1 [1]) exProp = exProp := by
  have h := castVote_updates_all_or_nothing NatProvider exProp 4 1 1 [1, 0]
  have hok := h.1 exVoted (by rfl)
  have h2 := castVote_updates_all_or_nothing NatProvider exProp 4 1 1 [1]
  have hbad : castVote NatProvider exProp 4 1 1 [1] =
      .error (.InvalidOptionsCount 1 2) :=
    h2.2.1 (by decide) (by decide) (by decide) (by decide)
  refine ⟨?_, hok.2.2.2, hbad, h2.2.2 _ hbad⟩
  have ha := hok.2.2.1 0 (by decide) (by decide) (by decide)
  have hb := hok.2.2.1 1 (by decide) (by decide) (by decide)
  simp only [NatProvider] at ha hb
  decide

/-- C1: once `tallyVotes` has succeeded on a proposal, every later
`tallyVotes` call on it (after any sequence of further calls, at any
clock reading not before the successful one) fails with
`ResultsAlreadyDecrypted`, leaves the state unchanged, and the stored
`decryptedResults` and `resultsDecrypted` flag are exactly those set by
the successful tally. -/
theorem tallyVotes_at_most_once {C : Type} (prov : Provider C)
    (s : VState C) (now pid : Nat) (t : VState C)
    (hreach : Reachable prov s)
    (htally : tallyVotes prov s now pid = .ok t)
    (ops : List (Op C)) (now2 : Nat) (hnow : now ≤ now2) :
    tallyVotes prov (applyOps prov ops t) now2 pid =
      .error (.ResultsAlreadyDecrypted pid) ∧
    ((applyOps prov ops t).proposals pid).resultsDecrypted = true ∧
    ((applyOps prov ops t).proposals pid).decryptedResults =
      (t.proposals pid).decryptedResults ∧
    applyOp prov (Op.tally now2 pid) (applyOps prov ops t) =
      applyOps prov ops t := by
  obtain ⟨hid, hgt, hdec, ht⟩ := (tallyVotes_ok_iff prov s now pid t).mp htally
  have hinv := reachable_Inv prov s hreach
  have hpid := (id_ne_zero_iff hinv pid).mp hid
  have hlt : pid < t.nextProposalId := by
    rw [ht, tallySuccessState_nextProposalId]
    exact hpid.2
  obtain ⟨_, hidp, _, _, hdl, _, hres, _⟩ := applyOps_frame prov ops t pid hlt
  have htid : (t.proposals pid).id = (s.proposals pid).id := by
    rw [ht, tallySuccessState_proposals_eq]
  have htdl : (t.proposals pid).votingDeadline =
      (s.proposals pid).votingDeadline := by
    rw [ht, tallySuccessState_proposals_eq]
  have htrd : (t.proposals pid).resultsDecrypted = true := by
    rw [ht, tallySuccessState_proposals_eq]
  obtain ⟨hres1, hres2⟩ := hres htrd
  have herr : tallyVotes prov (applyOps prov ops t) now2 pid =
      .error (.ResultsAlreadyDecrypted pid) := by
    refine tallyVotes_error_already prov _ now2 pid ?_ ?_ hres1
    · rw [hidp, htid]
      exact hid
    · rw [hdl, htdl]
      omega
  exact ⟨herr, hres1, hres2, by simp [applyOp, herr]⟩

/-- C1 witness: after the concrete successful tally at clock 6, a second
tally at clock 7 fails `ResultsAlreadyDecrypted` and changes nothing. -/
theorem tallyVotes_at_most_once_witness :
    tallyVotes NatProvider exTallied 7 1 =
      .error (.ResultsAlreadyDecrypted 1) ∧
    (exTallied.proposals 1).resultsDecrypted = true ∧
    applyOp NatProvider (Op.tally 7 1) exTallied = exTallied := by
  have h := tallyVotes_at_most_once NatProvider exVoted 6 1 exTallied
    ⟨[Op.create 7 0 "Q" ["Yes", "No"] 5, Op.vote 4 1 1 [1, 0]], rfl⟩
    (by rfl) [] 7 (by omega)
  exact ⟨h.1, h.2.1, h.2.2.2⟩

/-- C2 counterexample: voter 4, who already voted successfully on proposal
1, attempts a second vote strictly after the deadline and is rejected with
`VotingIsClosed`, not `AlreadyVoted` — refuting the claim that a second
attempt is always rejected with the exact error `AlreadyVoted`. -/
theorem castVote_second_attempt_not_alreadyVoted :
    exVoted.hasVoted 4 1 = true ∧
    castVote NatProvider exVoted 4 10 1 [0, 1] = .error (.VotingIsClosed 1) ∧
    VError.VotingIsClosed 1 ≠ VError.AlreadyVoted 4 1 := by
  exact ⟨by decide, by rfl, by decide⟩

/-- C2 (amended): at most one `castVote` by a given identity on a given
proposal ever succeeds and the voter record, once set, is never cleared;
a second attempt is always rejected, with the exact error `AlreadyVoted`
whenever the voting window is still open (after the deadline it is
rejected with `VotingIsClosed`). -/
theorem castVote_at_most_once {C : Type} (prov : Provider C)
    (s : VState C) (sender now pid : Nat) (votes : List C) (t : VState C)
    (hreach : Reachable prov s)
    (hvote : castVote prov s sender now pid votes = .ok t)
    (ops : List (Op C)) :
    (applyOps prov ops t).hasVoted sender pid = true ∧
    (∀ now2 votes2 u,
      castVote prov (applyOps prov ops t) sender now2 pid votes2 ≠ .ok u) ∧
    (∀ now2 votes2, now2 ≤ (s.proposals pid).votingDeadline →
      castVote prov (applyOps prov ops t) sender now2 pid votes2 =
        .error (.AlreadyVoted sender pid)) := by
  obtain ⟨hid, hnow, hhv, hlen, ht⟩ :=
    (castVote_ok_iff prov s sender now pid votes t).mp hvote
  have hinv := reachable_Inv prov s hreach
  have hpid := (id_ne_zero_iff hinv pid).mp hid
  have hlt : pid < t.nextProposalId := by
    rw [ht, voteSuccessState_nextProposalId]
    exact hpid.2
  obtain ⟨_, hidp, _, _, hdl, _, _, hmono⟩ := applyOps_frame prov ops t pid hlt
  have htid : (t.proposals pid).id = (s.proposals pid).id := by
    rw [ht, voteSuccessState_proposals_eq]
  have htdl : (t.proposals pid).votingDeadline =
      (s.proposals pid).votingDeadline := by
    rw [ht, voteSuccessState_proposals_eq]
  have hthv : t.hasVoted sender pid = true := by
    rw [ht]
    exact voteSuccessState_hasVoted_self prov s sender pid votes
  have hvoted : (applyOps prov ops t).hasVoted sender pid = true :=
    hmono sender pid hthv
  refine ⟨hvoted, ?_, ?_⟩
  · intro now2 votes2 u hok
    obtain ⟨_, _, hfalse, _, _⟩ :=
      (castVote_ok_iff prov (applyOps prov ops t) sender now2 pid votes2 u).mp hok
    rw [hvoted] at hfalse
    exact Bool.true_eq_false.mp hfalse
  · intro now2 votes2 hle
    refine (castVote_stage_errors prov (applyOps prov ops t) sender
      now2 pid votes2).2.2.1 ?_ ?_ hvoted
    · rw [hidp, htid]
      exact hid
    · rw [hdl, htdl]
      exact hle

/-- C2 (amended) witness: after voter 4's successful concrete vote, the
record is set and a second in-window attempt fails `AlreadyVoted`. -/
theorem castVote_at_most_once_witness :
    exVoted.hasVoted 4 1 = true ∧
    castVote NatProvider exVoted 4 3 1 [0, 1] = .error (.AlreadyVoted 4 1) := by
  have h := castVote_at_most_once NatProvider exProp 4 1 1 [1, 0] exVoted
    ⟨[Op.create 7 0 "Q" ["Yes", "No"] 5], rfl⟩ (by rfl) []
  exact ⟨h.1, h.2.2 3 [0, 1] (by decide)⟩

/-- C5 counterexample: a proposal created with an empty option list can be
tallied, after which `resultsDecrypted` is true while `decryptedResults`
is empty — refuting the claimed equivalence between `resultsDecrypted`
and non-emptiness of `decryptedResults`. -/
theorem results_invariant_fails_on_empty_options :
    ¬(((exEmptyTallied.proposals 1).resultsDecrypted = true) ↔
      (exEmptyTallied.proposals 1).decryptedResults ≠ []) := by
  decide

/-- C5 (amended): in every reachable state, a non-empty `decryptedResults`
implies `resultsDecrypted`, `resultsDecrypted` implies
`len(decryptedResults) = len(options)` (parallel to the options), and the
converse direction of the equivalence holds for every proposal with at
least one option. -/
theorem results_invariant {C : Type} (prov : Provider C) (s : VState C)
    (hreach : Reachable prov s) (pid : Nat) :
    ((s.proposals pid).decryptedResults ≠ [] →
      (s.proposals pid).resultsDecrypted = true) ∧
    ((s.proposals pid).resultsDecrypted = true →
      (s.proposals pid).decryptedResults.length =
        (s.proposals pid).options.length) ∧
    ((s.proposals pid).resultsDecrypted = true →
      (s.proposals pid).options ≠ [] →
      (s.proposals pid).decryptedResults ≠ []) := by
  obtain ⟨_, _, _, _, h5, h6⟩ := reachable_Inv prov s hreach
  refine ⟨h5 pid, h6 pid, ?_⟩
  intro hrd hopts
  have hlen := h6 pid hrd
  intro hnil
  rw [hnil] at hlen
  simp only [List.length_nil] at hlen
  exact hopts (List.eq_nil_of_length_eq_zero hlen.symm)

/-- C5 (amended) witness: the concrete tallied two-option proposal has
results of length 2 and non-empty. -/
theorem results_invariant_witness :
    (exTallied.proposals 1).decryptedResults.length =
      (exTallied.proposals 1).options.length ∧
    (exTallied.proposals 1).decryptedResults ≠ [] := by
  have h := results_invariant NatProvider exTallied
    ⟨[Op.create 7 0 "Q" ["Yes", "No"] 5, Op.vote 4 1 1 [1, 0],
      Op.tally 6 1], rfl⟩ 1
  refine ⟨h.2.1 (by decide), h.2.2 (by decide) ?_⟩
  intro hn
  exact absurd (congrArg List.length hn) (by decide)

/-- C6 counterexample: `createProposal` accepts an empty `optionNames`
argument and then the new proposal has zero options — refuting the claim
that every created proposal has at least one option. -/
theorem created_proposal_can_have_no_options :
    ¬(1 ≤ ((applyOps NatProvider [Op.create 7 0 "E" [] 3]
      (initState Nat)).proposals 1).options.length) := by
  decide

/-- C6 (amended): a proposal created with a non-empty `optionNames` has at
least one option; the option names (hence the length and order of the
option list) are exactly `optionNames` at creation and are never changed
by any later operation. -/
theorem options_fixed_after_creation {C : Type} (prov : Provider C)
    (s : VState C) (hreach : Reachable prov s) :
    (∀ sender now title names dur,
      ((createProposal prov s sender now title names dur).1.proposals
          s.nextProposalId).options.map ProposalOption.name = names ∧
      (names ≠ [] →
        1 ≤ ((createProposal prov s sender now title names dur).1.proposals
          s.nextProposalId).options.length)) ∧
    (∀ pid, (s.proposals pid).id ≠ 0 → ∀ ops,
      ((applyOps prov ops s).proposals pid).options.map ProposalOption.name =
        (s.proposals pid).options.map ProposalOption.name ∧
      ((applyOps prov ops s).proposals pid).options.length =
        (s.proposals pid).options.length) := by
  have hinv := reachable_Inv prov s hreach
  have hdef : s.proposals s.nextProposalId = defaultProposal C :=
    hinv.2.1 _ (le_refl _)
  constructor
  · intro sender now title names dur
    have hopts : ((createProposal prov s sender now title names dur).1.proposals
        s.nextProposalId).options = names.map (fun n =>
          { name := n, encryptedVoteCount := prov.trivialEncrypt 0 }) := by
      rw [createProposal_proposals_eq]
      show (s.proposals s.nextProposalId).options ++ _ = _
      rw [hdef]
      exact List.nil_append _
    constructor
    · rw [hopts, List.map_map]
      exact List.map_id' names
    · intro hne
      rw [hopts, List.length_map]
      have := List.length_pos.mpr hne
      omega
  · intro pid hid ops
    have hpid := (id_ne_zero_iff hinv pid).mp hid
    obtain ⟨_, _, _, _, _, hnames, _, _⟩ := applyOps_frame prov ops s pid hpid.2
    refine ⟨hnames, ?_⟩
    have := congrArg List.length hnames
    simpa using this

/-- C6 (amended) witness: the concrete two-option proposal keeps its
option names `["Yes", "No"]` through a vote and a tally. -/
theorem options_fixed_after_creation_witness :
    (exProp.proposals 1).options.map ProposalOption.name = ["Yes", "No"] ∧
    ((applyOps NatProvider [Op.vote 4 1 1 [1, 0], Op.tally 6 1]
      exProp).proposals 1).options.map ProposalOption.name = ["Yes", "No"] := by
  have h0 := options_fixed_after_creation NatProvider (initState Nat) ⟨[], rfl⟩
  have h1 := (h0.1 7 0 "Q" ["Yes", "No"] 5).1
  have h := options_fixed_after_creation NatProvider exProp
    ⟨[Op.create 7 0 "Q" ["Yes", "No"] 5], rfl⟩
  have h2 := (h.2 1 (by decide) [Op.vote 4 1 1 [1, 0], Op.tally 6 1]).1
  constructor
  · exact h1
  · rw [h2]
    exact h1

theorem castVote_notFound_iff {C : Type} (prov : Provider C) (s : VState C)
    (sender now pid : Nat) (votes : List C) :
    castVote prov s sender now pid votes = .error (.ProposalNotFound pid) ↔
      (s.proposals pid).id = 0 := by
  unfold castVote
  by_cases h0 : (s.proposals pid).id = 0
  · rw [if_pos h0]
    simp [h0]
  · rw [if_neg h0]
    simp only [h0, iff_false]
    split_ifs <;> simp

theorem tallyVotes_notFound_iff {C : Type} (prov : Provider C) (s : VState C)
    (now pid : Nat) :
    tallyVotes prov s now pid = .error (.ProposalNotFound pid) ↔
      (s.proposals pid).id = 0 := by
  unfold tallyVotes
  by_cases h0 : (s.proposals pid).id = 0
  · rw [if_pos h0]
    simp [h0]
  · rw [if_neg h0]
    simp only [h0, iff_false]
    split_ifs <;> simp

theorem getProposal_notFound_iff {C : Type} (s : VState C) (pid : Nat) :
    getProposal s pid = .error (.ProposalNotFound pid) ↔
      (s.proposals pid).id = 0 := by
  unfold getProposal
  by_cases h0 : (s.proposals pid).id = 0
  · rw [if_pos h0]
    simp [h0]
  · rw [if_neg h0]
    simp [h0]

theorem getDecryptedResults_notFound_iff {C : Type} (s : VState C) (pid : Nat) :
    getDecryptedResults s pid = .error (.ProposalNotFound pid) ↔
      (s.proposals pid).id = 0 := by
  unfold getDecryptedResults
  by_cases h0 : (s.proposals pid).id = 0
  · rw [if_pos h0]
    simp [h0]
  · rw [if_neg h0]
    simp only [h0, iff_false]
    split_ifs <;> simp

/-- C7: proposal ids are allocated monotonically starting at 1 with 0
reserved as the absent sentinel: in every reachable state the assigned ids
are exactly `1 .. nextProposalId - 1`, the four id-taking entry points
fail with `ProposalNotFound` exactly on unassigned ids, `createProposal`
returns the next id, bumps the counter, sets the deadline to
`now + votingDurationSeconds` and seeds every option with
`trivialEncrypt 0`. -/
theorem createProposal_id_allocation {C : Type} (prov : Provider C)
    (s : VState C) (hreach : Reachable prov s) :
    1 ≤ s.nextProposalId ∧
    (∀ sender now title names dur,
      (createProposal prov s sender now title names dur).2 =
        s.nextProposalId ∧
      (createProposal prov s sender now title names dur).1.nextProposalId =
        s.nextProposalId + 1 ∧
      ((createProposal prov s sender now title names dur).1.proposals
          s.nextProposalId).votingDeadline = now + dur ∧
      (∀ o ∈ ((createProposal prov s sender now title names dur).1.proposals
          s.nextProposalId).options,
        o.encryptedVoteCount = prov.trivialEncrypt 0)) ∧
    (∀ q, (s.proposals q).id ≠ 0 ↔ 1 ≤ q ∧ q < s.nextProposalId) ∧
    (∀ q, getProposal s q = .error (.ProposalNotFound q) ↔
      ¬(1 ≤ q ∧ q < s.nextProposalId)) ∧
    (∀ q sender now votes,
      castVote prov s sender now q votes = .error (.ProposalNotFound q) ↔
        ¬(1 ≤ q ∧ q < s.nextProposalId)) ∧
    (∀ q now, tallyVotes prov s now q = .error (.ProposalNotFound q) ↔
      ¬(1 ≤ q ∧ q < s.nextProposalId)) ∧
    (∀ q, getDecryptedResults s q = .error (.ProposalNotFound q) ↔
      ¬(1 ≤ q ∧ q < s.nextProposalId)) := by
  have hinv := reachable_Inv prov s hreach
  have hzero : ∀ q, (s.proposals q).id = 0 ↔ ¬(1 ≤ q ∧ q < s.nextProposalId) := by
    intro q
    rw [← id_ne_zero_iff hinv q]
    exact not_not.symm
  have hdef : s.proposals s.nextProposalId = defaultProposal C :=
    hinv.2.1 _ (le_refl _)
  refine ⟨hinv.1, ?_, fun q => id_ne_zero_iff hinv q, ?_, ?_, ?_, ?_⟩
  · intro sender now title names dur
    refine ⟨createProposal_snd prov s sender now title names dur,
      createProposal_nextProposalId prov s sender now title names dur, ?_, ?_⟩
    · rw [createProposal_proposals_eq]
    · intro o ho
      rw [createProposal_proposals_eq] at ho
      have ho2 : o ∈ (s.proposals s.nextProposalId).options ++
          names.map (fun n =>
            { name := n, encryptedVoteCount := prov.trivialEncrypt 0 }) := ho
      rw [hdef] at ho2
      rw [show (defaultProposal C).options = [] from rfl,
        List.nil_append] at ho2
      obtain ⟨n, _, rfl⟩ := List.mem_map.mp ho2
      rfl
  · intro q
    rw [getProposal_notFound_iff s q]
    exact hzero q
  · intro q sender now votes
    rw [castVote_notFound_iff prov s sender now q votes]
    exact hzero q
  · intro q now
    rw [tallyVotes_notFound_iff prov s now q]
    exact hzero q
  · intro q
    rw [getDecryptedResults_notFound_iff s q]
    exact hzero q

/-- C7 witness: on the concrete one-proposal state, creation returns id 2
with deadline `now + duration`, id 0 and unassigned id 5 give
`ProposalNotFound`, and the assigned id 1 does not. -/
theorem createProposal_id_allocation_witness :
    (createProposal NatProvider exProp 9 10 "R" ["X"] 4).2 = 2 ∧
    ((createProposal NatProvider exProp 9 10 "R" ["X"] 4).1.proposals
      2).votingDeadline = 14 ∧
    getProposal exProp 0 = .error (.ProposalNotFound 0) ∧
    tallyVotes NatProvider exProp 9 5 = .error (.ProposalNotFound 5) ∧
    ¬(getProposal exProp 1 = .error (.ProposalNotFound 1)) := by
  have h := createProposal_id_allocation NatProvider exProp
    ⟨[Op.create 7 0 "Q" ["Yes", "No"] 5], rfl⟩
  have hc := h.2.1 9 10 "R" ["X"] 4
  refine ⟨hc.1.trans (by decide), ?_, (h.2.2.2.1 0).mpr (by decide),
    (h.2.2.2.2.2.1 5 9).mpr (by decide), ?_⟩
  · have hnext : exProp.nextProposalId = 2 := by decide
    rw [← hnext]
    exact hc.2.2.1
  · intro hc1
    exact absurd ((h.2.2.2.1 1).mp hc1) (by decide)

/-! ### Order independence of vote accumulation -/

theorem foldl_eq_of_perm {α β : Type} (f : β → α → β)
    (hf : ∀ b x y, f (f b x) y = f (f b y) x) {l1 l2 : List α}
    (p : l1.Perm l2) : ∀ b, l1.foldl f b = l2.foldl f b := by
  induction p with
  | nil => intro b; rfl
  | cons x p ih =>
    intro b
    simp only [List.foldl_cons]
    exact ih (f b x)
  | swap x y l =>
    intro b
    simp only [List.foldl_cons]
    rw [hf b y x]
  | trans p1 p2 ih1 ih2 =>
    intro b
    rw [ih1 b, ih2 b]

theorem accumulate_right_comm {C : Type} (prov : Provider C)
    (hcomm : ∀ a b, prov.add a b = prov.add b a)
    (hassoc : ∀ a b c, prov.add (prov.add a b) c = prov.add a (prov.add b c))
    (opts : List (ProposalOption C)) (v w : List C) :
    accumulate prov (accumulate prov opts v) w =
      accumulate prov (accumulate prov opts w) v := by
  induction opts generalizing v w with
  | nil => simp [accumulate]
  | cons o os ih =>
    cases v with
    | nil => simp [accumulate]
    | cons a as =>
      cases w with
      | nil => simp [accumulate]
      | cons b bs =>
        simp only [accumulate, List.zipWith_cons_cons]
        refine congrArg₂ _ ?_ (ih as bs)
        have hhead : prov.add (prov.add o.encryptedVoteCount a) b =
            prov.add (prov.add o.encryptedVoteCount b) a := by
          rw [hassoc, hcomm a b, ← hassoc]
        simp [hhead]

/-- The sequence of `castVote` calls described by the voter list `L`
(entries are voter, clock reading, vote vector) on proposal `pid`. -/
def voteOps {C : Type} (pid : Nat) (L : List (Nat × Nat × List C)) :
    List (Op C) :=
  L.map (fun x => Op.vote x.1 x.2.1 pid x.2.2)

theorem applyOps_voteOps_options {C : Type} (prov : Provider C) (pid : Nat)
    (L : List (Nat × Nat × List C)) (s : VState C)
    (hid : (s.proposals pid).id ≠ 0)
    (hdl : ∀ x ∈ L, x.2.1 ≤ (s.proposals pid).votingDeadline)
    (hlen : ∀ x ∈ L, x.2.2.length = (s.proposals pid).options.length)
    (hnv : ∀ x ∈ L, s.hasVoted x.1 pid = false)
    (hnd : (L.map (fun x => x.1)).Nodup) :
    ((applyOps prov (voteOps pid L) s).proposals pid).options =
      L.foldl (fun opts x => accumulate prov opts x.2.2)
        (s.proposals pid).options := by
  induction L generalizing s with
  | nil => rfl
  | cons x rest ih =>
    obtain ⟨hx_notin, hnd_rest⟩ := by
      rw [List.map_cons, List.nodup_cons] at hnd
      exact hnd
    have hok : castVote prov s x.1 x.2.1 pid x.2.2 =
        .ok (voteSuccessState prov s x.1 pid x.2.2) :=
      (castVote_ok_iff prov s x.1 x.2.1 pid x.2.2 _).mpr
        ⟨hid, hdl x (List.mem_cons_self x rest),
          hnv x (List.mem_cons_self x rest),
          hlen x (List.mem_cons_self x rest), rfl⟩
    have hstep : applyOps prov (voteOps pid (x :: rest)) s =
        applyOps prov (voteOps pid rest)
          (voteSuccessState prov s x.1 pid x.2.2) := by
      show applyOps prov (Op.vote x.1 x.2.1 pid x.2.2 :: voteOps pid rest) s = _
      simp [applyOps, applyOp, hok]
    rw [hstep]
    have hteq := voteSuccessState_proposals_eq prov s x.1 pid x.2.2
    have hlen_x := hlen x (List.mem_cons_self x rest)
    have hopts_len :
        ((voteSuccessState prov s x.1 pid x.2.2).proposals pid).options.length =
          (s.proposals pid).options.length := by
      rw [hteq]
      show (accumulate prov (s.proposals pid).options x.2.2).length = _
      rw [accumulate_length]
      omega
    rw [ih (voteSuccessState prov s x.1 pid x.2.2)
      (by rw [hteq]; exact hid)
      (fun y hy => by
        rw [hteq]
        exact hdl y (List.mem_cons_of_mem x hy))
      (fun y hy => by
        rw [hopts_len]
        exact hlen y (List.mem_cons_of_mem x hy))
      (fun y hy => by
        rw [voteSuccessState_hasVoted_other prov s x.1 pid x.2.2 y.1 pid
          (Or.inl (fun hvy => hx_notin (hvy ▸ List.mem_map_of_mem _ hy)))]
        exact hnv y (List.mem_cons_of_mem x hy))
      hnd_rest]
    rw [hteq]
    rfl

/-- C8: applying a fixed set of successful votes by distinct voters in any
order yields the same option ciphertext tallies after decryption — and
hence the same decrypted results from a subsequent `tallyVotes` — given
that the provider's homomorphic addition is commutative and associative. -/
theorem vote_accumulation_order_independent {C : Type} (prov : Provider C)
    (hcomm : ∀ a b, prov.add a b = prov.add b a)
    (hassoc : ∀ a b c, prov.add (prov.add a b) c = prov.add a (prov.add b c))
    (s : VState C) (pid : Nat) (L1 L2 : List (Nat × Nat × List C))
    (hperm : L1.Perm L2)
    (hid : (s.proposals pid).id ≠ 0)
    (hdl : ∀ x ∈ L1, x.2.1 ≤ (s.proposals pid).votingDeadline)
    (hlen : ∀ x ∈ L1, x.2.2.length = (s.proposals pid).options.length)
    (hnv : ∀ x ∈ L1, s.hasVoted x.1 pid = false)
    (hnd : (L1.map (fun x => x.1)).Nodup) :
    (((applyOps prov (voteOps pid L1) s).proposals pid).options.map
        (fun o => prov.decrypt o.encryptedVoteCount) =
      ((applyOps prov (voteOps pid L2) s).proposals pid).options.map
        (fun o => prov.decrypt o.encryptedVoteCount)) ∧
    (∀ now2 t1 t2,
      tallyVotes prov (applyOps prov (voteOps pid L1) s) now2 pid = .ok t1 →
      tallyVotes prov (applyOps prov (voteOps pid L2) s) now2 pid = .ok t2 →
      (t1.proposals pid).decryptedResults =
        (t2.proposals pid).decryptedResults) := by
  have h1 := applyOps_voteOps_options prov pid L1 s hid hdl hlen hnv hnd
  have h2 := applyOps_voteOps_options prov pid L2 s hid
    (fun x hx => hdl x (hperm.mem_iff.mpr hx))
    (fun x hx => hlen x (hperm.mem_iff.mpr hx))
    (fun x hx => hnv x (hperm.mem_iff.mpr hx))
    ((hperm.map (fun x => x.1)).nodup_iff.mp hnd)
  have hmap : ((applyOps prov (voteOps pid L1) s).proposals pid).options.map
        (fun o => prov.decrypt o.encryptedVoteCount) =
      ((applyOps prov (voteOps pid L2) s).proposals pid).options.map
        (fun o => prov.decrypt o.encryptedVoteCount) := by
    rw [h1, h2]
    refine congrArg _ ?_
    exact foldl_eq_of_perm _
      (fun opts x y => accumulate_right_comm prov hcomm hassoc opts x.2.2 y.2.2)
      hperm (s.proposals pid).options
  refine ⟨hmap, ?_⟩
  intro now2 t1 t2 ht1 ht2
  obtain ⟨_, _, _, he1⟩ :=
    (tallyVotes_ok_iff prov (applyOps prov (voteOps pid L1) s) now2 pid t1).mp ht1
  obtain ⟨_, _, _, he2⟩ :=
    (tallyVotes_ok_iff prov (applyOps prov (voteOps pid L2) s) now2 pid t2).mp ht2
  rw [he1, he2, tallySuccessState_proposals_eq, tallySuccessState_proposals_eq]
  exact hmap

/-- C8 witness: the two concrete votes `[1,0]` (voter 4) and `[0,1]`
(voter 5) on the two-option proposal give the same decrypted tally in
either order. -/
theorem vote_accumulation_order_independent_witness :
    ((applyOps NatProvider (voteOps 1 [(4, 1, [1, 0]), (5, 2, [0, 1])])
        exProp).proposals 1).options.map
        (fun o => NatProvider.decrypt o.encryptedVoteCount) =
      ((applyOps NatProvider (voteOps 1 [(5, 2, [0, 1]), (4, 1, [1, 0])])
        exProp).proposals 1).options.map
        (fun o => NatProvider.decrypt o.encryptedVoteCount) :=
  (vote_accumulation_order_independent NatProvider
    (fun a b => Nat.add_comm a b) (fun a b c => Nat.add_assoc a b c)
    exProp 1 [(4, 1, [1, 0]), (5, 2, [0, 1])] [(5, 2, [0, 1]), (4, 1, [1, 0])]
    (by decide) (by decide) (by decide) (by decide) (by decide) (by decide)).1

end ChoicePro
